import Mathlib

/-!
# go-feature-flag: cache diffing, notification fan-out and configuration

A shallow embedding of

* `internal/cache/notification_service.go` (`getDifferences`, `Notify`, `Close`), and
* `config.go` (`Config`, `Config.GetRetriever`, the two `GetNotifier` methods),

followed by theorems about the embedded functions.  The functions `getNotifiers` and
`New` of `feature_flag.go` are known through their tests only; their models are
marked as such, and the tests that bear on them are stated as properties of the
function they call.

Go maps are embedded as association lists.  The order of the list is the order in
which a `for key := range m` loop visits the keys, so every theorem that
quantifies over all lists also quantifies over all iteration orders.  The
operations read and write through the first entry carrying a key, which is what
a Go map does for a list without repeated keys; none of the theorems needs the
absence of repeated keys as an assumption.  A nil map and an empty map are both
the empty list: the code below only reads from its argument maps, and reading a
nil map behaves as reading an empty one.
-/

/-! ## Go maps with `string` keys -/

/-- A Go `map[string]V`: its entries in iteration order. -/
abbrev GoMap (V : Type) := List (String × V)

namespace GoMap

variable {V : Type}

/-- The map literal `map[string]V{}`. -/
def empty : GoMap V := []

/-- The two-valued index expression `v, ok := m[k]`; `none` stands for `ok == false`. -/
def get? : GoMap V → String → Option V
  | [], _ => none
  | (k', v) :: m, k => if k' = k then some v else get? m k

/-- The one-valued index expression `m[k]`: the zero value when `k` is absent. -/
def index [Inhabited V] (m : GoMap V) (k : String) : V :=
  (m.get? k).getD default

/-- The assignment `m[k] = v`. -/
def set : GoMap V → String → V → GoMap V
  | [], k, v => [(k, v)]
  | (k', v') :: m, k, v => if k' = k then (k', v) :: m else (k', v') :: set m k v

/-- The keys visited by `for key := range m`, in visiting order. -/
def keys (m : GoMap V) : List String := m.map Prod.fst

/-- The builtin `len(m)`. -/
def len (m : GoMap V) : Nat := m.length

/-- The builtin `delete(m, k)`: afterwards `k` is not a key of `m`. -/
def delete (m : GoMap V) (k : String) : GoMap V :=
  m.filter (fun e => decide (e.1 ≠ k))

/-- The loop `for _, key := range ks { delete(m, key) }`. -/
def deleteAll (m : GoMap V) (ks : List String) : GoMap V :=
  ks.foldl (fun m key => m.delete key) m

/-- The loop `for _, key := range ks { if v, ok := f(key); ok { m[key] = v } }`. -/
def setAll (m : GoMap V) (ks : List String) (f : String → Option V) : GoMap V :=
  ks.foldl (fun m key => match f key with
    | some v => m.set key v
    | none => m) m

end GoMap

/-! ## Package `notifier`: the diff handed to notifiers -/

namespace notifier

/-- The struct `notifier.DiffUpdated`, as built at `notification_service.go:60-63`. -/
structure DiffUpdated (Flag : Type) where
  Before : Flag
  After : Flag
deriving DecidableEq, Repr

/-- The struct `notifier.DiffCache`, as built at `notification_service.go:46-50`. -/
structure DiffCache (Flag : Type) where
  Deleted : GoMap Flag
  Added : GoMap Flag
  Updated : GoMap (DiffUpdated Flag)
deriving DecidableEq, Repr

/-- Modelled from the spec: `DiffCache.HasDiff` lives in package `notifier`, whose
source is not part of this development.  Spec 4.2: "`HasChanges(diff) -> bool`: true
iff any of the three mappings is non-empty." -/
def DiffCache.HasDiff {Flag : Type} (d : DiffCache Flag) : Bool :=
  decide (0 < d.Deleted.len) || decide (0 < d.Added.len) || decide (0 < d.Updated.len)

end notifier

/-! ## Package `cache`: the notification service -/

namespace cache

open notifier

/-- Modelled from the spec: `cmp.Equal` applied to two `flag.Flag` values.  Neither
the comparison nor the type `flag.Flag` is part of this development; spec 3 makes a
flag definition an opaque value with deep structural equality, so `Flag` is a type
parameter and the comparison is its decidable equality.  What `getDifferences` does
when the comparison is any other function, such as one that finds a value unequal to
itself, is told by `getDifferencesWith`, where the comparison is a parameter. -/
def cmpEqual {Flag : Type} [DecidableEq Flag] (a b : Flag) : Bool := decide (a = b)

section getDifferences

variable {Flag : Type} [DecidableEq Flag] [Inhabited Flag]

/-- The body of the first loop of `getDifferences` (lines 51-65), run for one `key`
of `oldCache`. -/
def oldCacheStep (oldCache newCache : GoMap Flag) (diff : DiffCache Flag) (key : String) :
    DiffCache Flag :=
  let oldFlag := oldCache.index key
  match newCache.get? key with
  | none => { diff with Deleted := diff.Deleted.set key oldFlag }
  | some newFlag =>
    if !cmpEqual (oldCache.index key) (newCache.index key) then
      { diff with Updated := diff.Updated.set key { Before := oldFlag, After := newFlag } }
    else diff

/-- The body of the second loop of `getDifferences` (lines 67-72), run for one `key`
of `newCache`. -/
def newCacheStep (oldCache newCache : GoMap Flag) (diff : DiffCache Flag) (key : String) :
    DiffCache Flag :=
  match oldCache.get? key with
  | none => { diff with Added := diff.Added.set key (newCache.index key) }
  | some _ => diff

/-- The method `notificationService.getDifferences` (lines 43-74).  It does not use
its receiver. -/
def getDifferences (oldCache newCache : GoMap Flag) : DiffCache Flag :=
  let diff : DiffCache Flag :=
    { Deleted := GoMap.empty, Added := GoMap.empty, Updated := GoMap.empty }
  let diff := oldCache.keys.foldl (oldCacheStep oldCache newCache) diff
  let diff := newCache.keys.foldl (newCacheStep oldCache newCache) diff
  diff

end getDifferences

section getDifferencesWith

variable {Flag : Type} [Inhabited Flag]

/-- The body of the first loop of `getDifferences` (lines 51-65) with the comparison
called at line 59, `cmp.Equal`, as the parameter `equal`. -/
def oldCacheStepWith (equal : Flag → Flag → Bool) (oldCache newCache : GoMap Flag)
    (diff : DiffCache Flag) (key : String) : DiffCache Flag :=
  let oldFlag := oldCache.index key
  match newCache.get? key with
  | none => { diff with Deleted := diff.Deleted.set key oldFlag }
  | some newFlag =>
    if !equal (oldCache.index key) (newCache.index key) then
      { diff with Updated := diff.Updated.set key { Before := oldFlag, After := newFlag } }
    else diff

/-- The method `notificationService.getDifferences` (lines 43-74) with the comparison
`cmp.Equal` as the parameter `equal`; `getDifferences` is the case of `cmpEqual`.
The second loop makes no comparison. -/
def getDifferencesWith (equal : Flag → Flag → Bool) (oldCache newCache : GoMap Flag) :
    DiffCache Flag :=
  let diff : DiffCache Flag :=
    { Deleted := GoMap.empty, Added := GoMap.empty, Updated := GoMap.empty }
  let diff := oldCache.keys.foldl (oldCacheStepWith equal oldCache newCache) diff
  let diff := newCache.keys.foldl (newCacheStep oldCache newCache) diff
  diff

end getDifferencesWith

/-- A `float64` as far as `==` tells its values apart: not-a-number, or a number.
Only the comparison is of interest, and the numbers are integers. -/
inductive Float64 where
  | NaN
  | num (x : Int)
deriving DecidableEq, Repr

/-- The zero value of a `float64`. -/
instance : Inhabited Float64 := ⟨Float64.num 0⟩

/-- The operator `==` of Go on two `float64`: not-a-number is unequal to every value,
itself included. -/
def Float64.equal : Float64 → Float64 → Bool
  | Float64.num x, Float64.num y => decide (x = y)
  | _, _ => false

/-- A flag of the examples: one exported `float64` field, as the `percentage` of the
flags shown in the doc comment of `WebhookConfig` (`config.go:92-133`). -/
structure PercentageFlag where
  Percentage : Float64
deriving DecidableEq, Repr

/-- The zero value of the struct. -/
instance : Inhabited PercentageFlag := ⟨{ Percentage := default }⟩

/-- The comparison `cmp.Equal` on two such flags, called without option as at line 59:
structs are compared field by field and floats with `==`. -/
def PercentageFlag.cmpEqual (a b : PercentageFlag) : Bool :=
  Float64.equal a.Percentage b.Percentage

/-- The counter of a `sync.WaitGroup`: the number of `Add(1)` calls not yet matched
by a `Done()`.  The standard library type is used through `Add` and `Wait` only. -/
structure WaitGroup where
  counter : Int
deriving DecidableEq, Repr

/-- The call `wg.Add(delta)`. -/
def WaitGroup.Add (wg : WaitGroup) (delta : Int) : WaitGroup :=
  { counter := wg.counter + delta }

/-- A delivery task started by the statement `go notifier.Notify(diff, c.waitGroup)`:
the notifier that is called and the diff it is called with.  The wait group it
receives is always the one of the service. -/
structure Goroutine (N Flag : Type) where
  notifier : N
  diff : DiffCache Flag
deriving DecidableEq, Repr

/-- The struct `notificationService` (lines 23-26).  `N` is the interface type
`notifier.Notifier`, whose implementations the service never inspects. -/
structure notificationService (N : Type) where
  Notifiers : List N
  waitGroup : WaitGroup
deriving DecidableEq, Repr

/-- The constructor `NewNotificationService` (lines 16-21): the wait group starts at
zero. -/
def NewNotificationService {N : Type} (notifiers : List N) : notificationService N :=
  { Notifiers := notifiers, waitGroup := { counter := 0 } }

section Notify

variable {N Flag : Type} [DecidableEq Flag] [Inhabited Flag]

/-- The body of the loop of `Notify` (lines 31-34) for one notifier: the state is the
service together with the goroutines started so far, oldest first. -/
def notifyStep (diff : DiffCache Flag)
    (st : notificationService N × List (Goroutine N Flag)) (notifier : N) :
    notificationService N × List (Goroutine N Flag) :=
  ({ st.1 with waitGroup := st.1.waitGroup.Add 1 },
    st.2 ++ [{ notifier := notifier, diff := diff }])

/-- The method `notificationService.Notify` (lines 28-36).  The result is the service
after the call and the list of goroutines the call started, in starting order. -/
def Notify (c : notificationService N) (oldCache newCache : GoMap Flag) :
    notificationService N × List (Goroutine N Flag) :=
  let diff := getDifferences oldCache newCache
  if diff.HasDiff then
    c.Notifiers.foldl (notifyStep diff) (c, [])
  else
    (c, [])

end Notify

section Rebuild

variable {Flag : Type}

/-- The rebuilding of the new cache from the old one and a diff.  It is not a function
of the package; it is written from the words of the property it serves: delete every
key of `Deleted`, set every key of `Updated` to its `After`, and insert every entry
of `Added`. -/
def applyDiff (oldCache : GoMap Flag) (diff : DiffCache Flag) : GoMap Flag :=
  let m := oldCache.deleteAll diff.Deleted.keys
  let m := m.setAll diff.Updated.keys (fun key => (diff.Updated.get? key).map (·.After))
  let m := m.setAll diff.Added.keys (fun key => diff.Added.get? key)
  m

end Rebuild

section Executions

variable {N Flag : Type} [DecidableEq Flag] [Inhabited Flag]

/-- What can happen to a notification service: a call of `Notify`, the completion of
a running delivery task, which signals `Done()` on the wait group it was given, and
the return of a call of `Close`. -/
inductive Event (Flag : Type) where
  | notify (oldCache newCache : GoMap Flag)
  | done (i : Nat)
  | close
deriving DecidableEq, Repr

/-- A service in the middle of an execution: the delivery tasks started and not yet
completed, oldest first, and the numbers of tasks started and completed so far. -/
structure Run (N Flag : Type) where
  service : notificationService N
  running : List (Goroutine N Flag)
  started : Nat
  completed : Nat
deriving DecidableEq, Repr

/-- The service right after `NewNotificationService`. -/
def Run.initial (notifiers : List N) : Run N Flag :=
  { service := NewNotificationService notifiers, running := [], started := 0, completed := 0 }

/-- One event.  `notify` is `Notify` (lines 28-36).  `done i` is the completion of the
running task at position `i`, which leaves the running tasks and calls `Done()`, that
is `Add(-1)`; there is no such event when no task is at that position, so a task
completes once.  `close` is the return of `Close` (lines 38-40): `Wait()` returns
only while the counter of the wait group is zero. -/
def Run.step (s : Run N Flag) : Event Flag → Option (Run N Flag)
  | Event.notify oldCache newCache =>
    let r := Notify s.service oldCache newCache
    some { service := r.1, running := s.running ++ r.2,
           started := s.started + r.2.length, completed := s.completed }
  | Event.done i =>
    if i < s.running.length then
      some { service := { s.service with waitGroup := s.service.waitGroup.Add (-1) },
             running := s.running.eraseIdx i,
             started := s.started, completed := s.completed + 1 }
    else none
  | Event.close =>
    if s.service.waitGroup.counter = 0 then some s else none

/-- An execution: the events one after the other, `none` when one of them cannot
happen. -/
def Run.exec (s : Run N Flag) : List (Event Flag) → Option (Run N Flag)
  | [] => some s
  | e :: es =>
    match s.step e with
    | some s' => Run.exec s' es
    | none => none

end Executions

end cache

/-! ## Package `ffclient`: the configuration -/

namespace ffclient

/-- The struct `WebhookConfig` (`config.go:135-140`). -/
structure WebhookConfig where
  EndpointURL : String
  Secret : String
  Meta : GoMap String
deriving DecidableEq, Repr

/-- The struct `SlackNotifier` (`config.go:152-154`). -/
structure SlackNotifier where
  SlackWebhookURL : String
deriving DecidableEq, Repr

/-- The interface `NotifierConfig` (`config.go:85-87`), as the sum of its two
implementations in the package. -/
inductive NotifierConfig where
  | webhook (w : WebhookConfig)
  | slack (s : SlackNotifier)
deriving DecidableEq, Repr

/-- The struct `Config` (`config.go:21-62`).  `R`, `L`, `X` and `E` are the types
`retriever.Retriever`, `log.Logger`, `context.Context` and `DataExporter`, declared
outside this development; an interface or pointer field that is nil is `none`.
`PollingInterval` is a `time.Duration`, a number of nanoseconds. -/
structure Config (R L X E : Type) where
  PollingInterval : Int
  Logger : Option L
  Context : Option X
  Environment : String
  Retriever : Option R
  Notifiers : List NotifierConfig
  FileFormat : String
  DataExporter : E
  StartWithRetrieverError : Bool
  Offline : Bool
deriving DecidableEq, Repr

/-- The method `Config.GetRetriever` (`config.go:65-70`).  The first component is the
returned pair (retriever, error), a nil error being `none` and an error being its
message; the second component is the configuration behind the receiver after the
call. -/
def Config.GetRetriever {R L X E : Type} (c : Config R L X E) :
    (Option R × Option String) × Config R L X E :=
  match c.Retriever with
  | none => ((none, some "no retriever in the configuration, impossible to get the flags"), c)
  | some r => ((some r, none), c)

/-- The interface values `notifier.Notifier` built by this package: a pointer to a
`logs.Notifier` holding a logger, to a `webhook.Notifier` or to a `slack.Notifier`.
`W` and `S` are the two struct types, declared outside this development. -/
inductive Notifier (L W S : Type) where
  | logs (Logger : L)
  | webhook (n : W)
  | slack (n : S)
deriving DecidableEq, Repr

/-- The functions of packages `internal`, `notifier/webhook` and `notifier/slack`
called by `config.go`.  Their source is not part of this development, so they are
parameters: `internal.DefaultHTTPClient()`, `webhook.NewNotifier`, which returns a
notifier and an error, and `slack.NewNotifier`, which returns a notifier only. -/
structure Packages (L H W S : Type) where
  DefaultHTTPClient : H
  webhookNewNotifier : Option L → H → String → String → GoMap String → W × Option String
  slackNewNotifier : Option L → H → String → S

section GetNotifier

variable {R L X E H W S : Type}

/-- The method `WebhookConfig.GetNotifier` (`config.go:143-150`): the returned pair
(notifier, error). -/
def WebhookConfig.GetNotifier (pk : Packages L H W S) (w : WebhookConfig)
    (config : Config R L X E) : Notifier L W S × Option String :=
  let url := w.EndpointURL
  let r := pk.webhookNewNotifier config.Logger pk.DefaultHTTPClient url w.Secret w.Meta
  (Notifier.webhook r.1, r.2)

/-- The method `SlackNotifier.GetNotifier` (`config.go:157-160`): the returned pair
(notifier, error). -/
def SlackNotifier.GetNotifier (pk : Packages L H W S) (w : SlackNotifier)
    (config : Config R L X E) : Notifier L W S × Option String :=
  let slackNotif := pk.slackNewNotifier config.Logger pk.DefaultHTTPClient w.SlackWebhookURL
  (Notifier.slack slackNotif, none)

/-- The interface method `NotifierConfig.GetNotifier` (`config.go:86`), dispatched to
the implementation behind the interface value. -/
def NotifierConfig.GetNotifier (pk : Packages L H W S) (c : NotifierConfig)
    (config : Config R L X E) : Notifier L W S × Option String :=
  match c with
  | NotifierConfig.webhook w => w.GetNotifier pk config
  | NotifierConfig.slack s => s.GetNotifier pk config

/-- The loop of `getNotifiers` over the notifier configurations not yet visited:
`notifiers` holds the notifiers appended so far.  An error ends the loop. -/
def getNotifiersLoop (pk : Packages L H W S) (config : Config R L X E) :
    List NotifierConfig → List (Notifier L W S) → List (Notifier L W S) × Option String
  | [], notifiers => (notifiers, none)
  | whConf :: rest, notifiers =>
    match whConf.GetNotifier pk config with
    | (_, some err) => ([], some err)
    | (notifier, none) => getNotifiersLoop pk config rest (notifiers ++ [notifier])

/-- Modelled from the spec: the function `getNotifiers` (`feature_flag.go`), of which
only the test `TestGoFeatureFlag_getNotifiers` is part of this development.  Spec 3
makes the registration an ordered set of notifiers attached at construction, spec 9
lists a log-based notifier among the built-in ones, and spec 4.5 aborts when a
notifier is not constructible.  As in the test, the log notifier comes first when
the configuration has a logger, followed by the notifier of each configuration in
order. -/
def getNotifiers (pk : Packages L H W S) (config : Config R L X E) :
    List (Notifier L W S) × Option String :=
  let notifiers : List (Notifier L W S) :=
    match config.Logger with
    | some logger => [Notifier.logs logger]
    | none => []
  getNotifiersLoop pk config config.Notifiers notifiers

/-- The constant `time.Second`: a `time.Duration` counts nanoseconds. -/
def Second : Int := 1000000000

/-- The client handed back by `New`: the configuration it was built from and its
notification service. -/
structure GoFeatureFlag (R L X E W S : Type) where
  config : Config R L X E
  notificationService : cache.notificationService (Notifier L W S)
deriving DecidableEq, Repr

/-- Modelled from the spec: the check of `PollingInterval` made by the constructor
`New` (`feature_flag.go`), which is not part of this development.  The result is the
error, `none` for an accepted interval.  Spec 4.4, 4.5 and 8: an interval of zero or
below is rejected, an interval of one second or more is accepted.  For a positive
interval below one second this development holds two answers: spec 4.4 has it
rejected, and `TestStartWithMinInterval` builds with an interval of 2 nanoseconds
and asserts that there is no error.  The model takes no side: the answer there is
the parameter `belowMinimum`. -/
def checkPollingInterval (belowMinimum : Int → Option String) (p : Int) : Option String :=
  if p ≤ 0 then some "not a valid PollingInterval value"
  else if p < Second then belowMinimum p
  else none

/-- Modelled from the spec: the constructor `New` (`feature_flag.go`), which is not
part of this development.  The result is the returned pair (client, error).  Spec
4.5, 6 and 7: construction fails when the retriever is absent, when the interval is
not accepted while not offline, when a notifier is not constructible, and when the
first retrieval fails while not offline and `StartWithRetrieverError` is not set;
otherwise it succeeds.  `firstRetrieval` is the outcome of the first retrieval
through the retriever, `none` for a success.  The message put before a notifier
error is that of `TestWrongWebhookConfig`. -/
def New (pk : Packages L H W S) (belowMinimum : Int → Option String)
    (firstRetrieval : R → Option String) (config : Config R L X E) :
    Option (GoFeatureFlag R L X E W S) × Option String :=
  match config.GetRetriever.1 with
  | (_, some err) => (none, some err)
  | (none, none) => (none, some "no retriever")
  | (some r, none) =>
    match (if config.Offline then none
      else checkPollingInterval belowMinimum config.PollingInterval) with
    | some err => (none, some err)
    | none =>
      match getNotifiers pk config with
      | (_, some err) => (none, some ("wrong configuration in your webhook: " ++ err))
      | (notifiers, none) =>
        if !config.Offline && !config.StartWithRetrieverError && (firstRetrieval r).isSome then
          (none, some "impossible to retrieve the flags")
        else
          (some { config := config,
                  notificationService := cache.NewNotificationService notifiers }, none)

end GetNotifier

/-- The configuration of `TestStartWithMinInterval` (`feature_flag_test.go:38-45`):
a polling interval of 2 nanoseconds, the file retriever of
`testdata/flag-config.yaml`, named by its path, and a logger. -/
def testMinIntervalConfig : Config String Unit Unit Unit :=
  { PollingInterval := 2, Logger := some (), Context := none, Environment := "",
    Retriever := some "testdata/flag-config.yaml", Notifiers := [], FileFormat := "",
    DataExporter := (), StartWithRetrieverError := false, Offline := false }

/-- Stand-ins for the package functions in the examples: a notifier is named by its
address, and the webhook constructor fails on the address of `TestWrongWebhookConfig`,
`" https://example.com/hook"`, only. -/
def testPackages : Packages Unit Unit String String :=
  { DefaultHTTPClient := (),
    webhookNewNotifier := fun _ _ url _ _ =>
      (url, if url = " https://example.com/hook" then some "parse error" else none),
    slackNewNotifier := fun _ _ url => url }

/-- A constructor as the tests of `feature_flag_test.go` call it: from the outcome of
the first retrieval and a configuration to the returned pair (client, error). -/
abbrev Constructor : Type :=
  (String → Option String) → Config String Unit Unit Unit →
    Option (GoFeatureFlag String Unit Unit Unit String String) × Option String

/-- The test `TestStartWithMinInterval` (`feature_flag_test.go:38-45`) as a property of
the constructor it calls: built from `testMinIntervalConfig`, whose flag file is
there, so that the first retrieval succeeds, the constructor returns a nil error
(`assert.NoError`). -/
def TestStartWithMinInterval (construct : Constructor) : Prop :=
  (construct (fun _ => none) testMinIntervalConfig).2 = none

/-- The test `TestStartWithNegativeInterval` (`feature_flag_test.go:29-36`) as a
property of the constructor it calls: the same retriever and logger with an interval
of -60 seconds give an error (`assert.Error`). -/
def TestStartWithNegativeInterval (construct : Constructor) : Prop :=
  (construct (fun _ => none)
    { testMinIntervalConfig with PollingInterval := -60 * Second }).2 ≠ none

end ffclient

/-! ## Lemmas on Go maps -/

namespace GoMap

variable {V : Type}

theorem get?_set (m : GoMap V) (k : String) (v : V) (k' : String) :
    (m.set k v).get? k' = if k = k' then some v else m.get? k' := by
  induction m with
  | nil => simp [set, get?]
  | cons e m ih =>
    obtain ⟨a, b⟩ := e
    by_cases hak : a = k
    · subst hak
      by_cases hk : a = k' <;> simp [set, get?, hk]
    · by_cases hk : k = k'
      · subst hk
        simp [set, get?, hak, ih]
      · by_cases hak' : a = k'
        · subst hak'
          simp [set, get?, hak, hk]
        · simp [set, get?, hak, hk, hak', ih]

theorem mem_keys_iff (m : GoMap V) (k : String) : k ∈ m.keys ↔ ∃ v, m.get? k = some v := by
  induction m with
  | nil => simp [keys, get?]
  | cons e m ih =>
    obtain ⟨a, b⟩ := e
    by_cases hak : a = k
    · subst hak
      simp [keys, get?]
    · have hka : ¬ k = a := fun h => hak h.symm
      have ih' : k ∈ List.map Prod.fst m ↔ ∃ v, get? m k = some v := ih
      simp [keys, get?, hak, hka, ih']

theorem not_mem_keys_iff (m : GoMap V) (k : String) : k ∉ m.keys ↔ m.get? k = none := by
  rw [mem_keys_iff]
  cases m.get? k <;> simp

theorem eq_nil_iff (m : GoMap V) : m = [] ↔ ∀ k, m.get? k = none := by
  constructor
  · rintro rfl k
    rfl
  · intro h
    cases m with
    | nil => rfl
    | cons e m =>
      obtain ⟨a, b⟩ := e
      have := h a
      simp [get?] at this

theorem len_eq_zero_iff (m : GoMap V) : m.len = 0 ↔ m = [] := by
  simp [len]

end GoMap

/-! ## The two loops of `getDifferences` -/

namespace cache

open notifier

section Loops

variable {Flag : Type} [DecidableEq Flag] [Inhabited Flag]

theorem oldCacheStep_Added (o n : GoMap Flag) (d : DiffCache Flag) (a : String) :
    (oldCacheStep o n d a).Added = d.Added := by
  unfold oldCacheStep
  cases n.get? a with
  | none => rfl
  | some w => dsimp only; split <;> rfl

theorem oldCacheStep_Deleted (o n : GoMap Flag) (d : DiffCache Flag) (a k : String) :
    (oldCacheStep o n d a).Deleted.get? k =
      if a = k ∧ n.get? a = none then some (o.index a) else d.Deleted.get? k := by
  unfold oldCacheStep
  cases h : n.get? a with
  | none => simp [GoMap.get?_set]
  | some w => dsimp only; split <;> simp

theorem oldCacheStep_Updated (o n : GoMap Flag) (d : DiffCache Flag) (a k : String) :
    (oldCacheStep o n d a).Updated.get? k =
      match n.get? a with
      | none => d.Updated.get? k
      | some w =>
        if a = k ∧ o.index a ≠ n.index a then some { Before := o.index a, After := w }
        else d.Updated.get? k := by
  unfold oldCacheStep
  cases h : n.get? a with
  | none => rfl
  | some w =>
    dsimp only
    by_cases he : o.index a = n.index a
    · simp [cmpEqual, he]
    · simp [cmpEqual, he, GoMap.get?_set]

omit [DecidableEq Flag] in
theorem newCacheStep_Deleted (o n : GoMap Flag) (d : DiffCache Flag) (a : String) :
    (newCacheStep o n d a).Deleted = d.Deleted := by
  unfold newCacheStep
  cases o.get? a <;> rfl

omit [DecidableEq Flag] in
theorem newCacheStep_Updated (o n : GoMap Flag) (d : DiffCache Flag) (a : String) :
    (newCacheStep o n d a).Updated = d.Updated := by
  unfold newCacheStep
  cases o.get? a <;> rfl

theorem newCacheStep_Added (o n : GoMap Flag) (d : DiffCache Flag) (a k : String) :
    (newCacheStep o n d a).Added.get? k =
      if a = k ∧ o.get? a = none then some (n.index a) else d.Added.get? k := by
  unfold newCacheStep
  cases h : o.get? a with
  | none => simp [GoMap.get?_set]
  | some w => simp

theorem oldLoop_Added (o n : GoMap Flag) (ks : List String) (d : DiffCache Flag) :
    (ks.foldl (oldCacheStep o n) d).Added = d.Added := by
  induction ks generalizing d with
  | nil => rfl
  | cons a ks ih => rw [List.foldl_cons, ih, oldCacheStep_Added]

theorem oldLoop_Deleted (o n : GoMap Flag) (ks : List String) (d : DiffCache Flag)
    (k : String) :
    (ks.foldl (oldCacheStep o n) d).Deleted.get? k =
      if k ∈ ks ∧ n.get? k = none then some (o.index k) else d.Deleted.get? k := by
  induction ks generalizing d with
  | nil => simp
  | cons a ks ih =>
    rw [List.foldl_cons, ih, oldCacheStep_Deleted]
    by_cases hak : a = k
    · subst hak
      by_cases hn : n.get? a = none <;> simp [hn]
    · have hka : ¬ k = a := fun h => hak h.symm
      simp [hak, hka]

theorem oldLoop_Updated (o n : GoMap Flag) (ks : List String) (d : DiffCache Flag)
    (k : String) :
    (ks.foldl (oldCacheStep o n) d).Updated.get? k =
      match n.get? k with
      | none => d.Updated.get? k
      | some w =>
        if k ∈ ks ∧ o.index k ≠ n.index k then some { Before := o.index k, After := w }
        else d.Updated.get? k := by
  induction ks generalizing d with
  | nil => cases n.get? k <;> simp
  | cons a ks ih =>
    rw [List.foldl_cons, ih, oldCacheStep_Updated]
    by_cases hak : a = k
    · subst hak
      cases hn : n.get? a with
      | none => rfl
      | some w =>
        dsimp only
        by_cases he : o.index a = n.index a <;> simp [he]
    · have hka : ¬ k = a := fun h => hak h.symm
      cases hn : n.get? k with
      | none =>
        dsimp only
        cases n.get? a <;> simp [hak]
      | some w =>
        dsimp only
        cases n.get? a <;> simp [hak, hka]

omit [DecidableEq Flag] in
theorem newLoop_Deleted (o n : GoMap Flag) (ks : List String) (d : DiffCache Flag) :
    (ks.foldl (newCacheStep o n) d).Deleted = d.Deleted := by
  induction ks generalizing d with
  | nil => rfl
  | cons a ks ih => rw [List.foldl_cons, ih, newCacheStep_Deleted]

omit [DecidableEq Flag] in
theorem newLoop_Updated (o n : GoMap Flag) (ks : List String) (d : DiffCache Flag) :
    (ks.foldl (newCacheStep o n) d).Updated = d.Updated := by
  induction ks generalizing d with
  | nil => rfl
  | cons a ks ih => rw [List.foldl_cons, ih, newCacheStep_Updated]

theorem newLoop_Added (o n : GoMap Flag) (ks : List String) (d : DiffCache Flag)
    (k : String) :
    (ks.foldl (newCacheStep o n) d).Added.get? k =
      if k ∈ ks ∧ o.get? k = none then some (n.index k) else d.Added.get? k := by
  induction ks generalizing d with
  | nil => simp
  | cons a ks ih =>
    rw [List.foldl_cons, ih, newCacheStep_Added]
    by_cases hak : a = k
    · subst hak
      by_cases hn : o.get? a = none <;> simp [hn]
    · have hka : ¬ k = a := fun h => hak h.symm
      simp [hak, hka]

/-- What `Deleted` holds at a key after both loops. -/
theorem getDifferences_Deleted_get? (o n : GoMap Flag) (k : String) :
    (getDifferences o n).Deleted.get? k =
      if k ∈ o.keys ∧ n.get? k = none then some (o.index k) else none := by
  unfold getDifferences
  dsimp only
  rw [newLoop_Deleted, oldLoop_Deleted]
  rfl

/-- What `Updated` holds at a key after both loops. -/
theorem getDifferences_Updated_get? (o n : GoMap Flag) (k : String) :
    (getDifferences o n).Updated.get? k =
      match n.get? k with
      | none => none
      | some w =>
        if k ∈ o.keys ∧ o.index k ≠ n.index k then some { Before := o.index k, After := w }
        else none := by
  unfold getDifferences
  dsimp only
  rw [newLoop_Updated, oldLoop_Updated]
  rfl

/-- What `Added` holds at a key after both loops. -/
theorem getDifferences_Added_get? (o n : GoMap Flag) (k : String) :
    (getDifferences o n).Added.get? k =
      if k ∈ n.keys ∧ o.get? k = none then some (n.index k) else none := by
  unfold getDifferences
  dsimp only
  rw [newLoop_Added, oldLoop_Added]
  rfl

theorem mem_Added_keys_iff (o n : GoMap Flag) (k : String) :
    k ∈ (getDifferences o n).Added.keys ↔ k ∈ n.keys ∧ k ∉ o.keys := by
  rw [GoMap.mem_keys_iff, getDifferences_Added_get?, GoMap.not_mem_keys_iff]
  by_cases h : k ∈ n.keys ∧ o.get? k = none <;> simp [h]

theorem mem_Deleted_keys_iff (o n : GoMap Flag) (k : String) :
    k ∈ (getDifferences o n).Deleted.keys ↔ k ∈ o.keys ∧ k ∉ n.keys := by
  rw [GoMap.mem_keys_iff, getDifferences_Deleted_get?, GoMap.not_mem_keys_iff]
  by_cases h : k ∈ o.keys ∧ n.get? k = none <;> simp [h]

theorem mem_Updated_keys_iff (o n : GoMap Flag) (k : String) :
    k ∈ (getDifferences o n).Updated.keys ↔
      k ∈ o.keys ∧ k ∈ n.keys ∧ o.index k ≠ n.index k := by
  rw [GoMap.mem_keys_iff, getDifferences_Updated_get?, GoMap.mem_keys_iff n]
  cases hn : n.get? k with
  | none => simp
  | some w =>
    dsimp only
    by_cases h : k ∈ o.keys ∧ o.index k ≠ n.index k
    · simp [h]
    · rw [if_neg h]
      simp only [reduceCtorEq, exists_false, false_iff]
      rintro ⟨h1, -, h3⟩
      exact h ⟨h1, h3⟩

/-- A map built by `getDifferences` is empty exactly when no name is a key of it. -/
theorem GoMap_eq_nil_iff_keys {V : Type} (m : GoMap V) : m = [] ↔ ∀ k, k ∉ m.keys := by
  rw [GoMap.eq_nil_iff]
  exact forall_congr' fun k => (GoMap.not_mem_keys_iff m k).symm

omit [DecidableEq Flag] [Inhabited Flag] in
theorem HasDiff_eq_false_iff (d : DiffCache Flag) :
    d.HasDiff = false ↔ d.Added = [] ∧ d.Deleted = [] ∧ d.Updated = [] := by
  cases hd : d.Deleted <;> cases ha : d.Added <;> cases hu : d.Updated <;>
    simp [DiffCache.HasDiff, GoMap.len, hd, ha, hu]

omit [DecidableEq Flag] [Inhabited Flag] in
theorem notifyLoop {N : Type} (diff : DiffCache Flag) (ks : List N)
    (st : notificationService N × List (Goroutine N Flag)) :
    ks.foldl (notifyStep diff) st =
      ({ st.1 with waitGroup := { counter := st.1.waitGroup.counter + ks.length } },
        st.2 ++ ks.map (fun x => { notifier := x, diff := diff })) := by
  induction ks generalizing st with
  | nil => simp
  | cons a ks ih =>
    rw [List.foldl_cons, ih]
    simp [notifyStep, WaitGroup.Add]
    omega

end Loops

end cache

/-! ## The diff engine: `getDifferences` -/

namespace cache

open notifier

section DiffEngine

variable {Flag : Type} [DecidableEq Flag] [Inhabited Flag]

/-- C1: a flag name is a key of `getDifferences(old, new).Added` if and only if it is
a key of `new` and not a key of `old`, and then `Added` holds the value `new` holds
for it. -/
theorem getDifferences_Added_spec (oldCache newCache : GoMap Flag) (k : String) :
    (k ∈ (getDifferences oldCache newCache).Added.keys ↔
        k ∈ newCache.keys ∧ k ∉ oldCache.keys) ∧
    (k ∈ (getDifferences oldCache newCache).Added.keys →
        (getDifferences oldCache newCache).Added.get? k = newCache.get? k) := by
  have key := mem_Added_keys_iff oldCache newCache k
  refine ⟨key, fun hk => ?_⟩
  obtain ⟨hn, ho⟩ := key.mp hk
  rw [GoMap.not_mem_keys_iff] at ho
  obtain ⟨v, hv⟩ := (GoMap.mem_keys_iff _ _).mp hn
  rw [getDifferences_Added_get?, if_pos ⟨hn, ho⟩, GoMap.index, hv]
  rfl

/-- C2: a flag name is a key of `getDifferences(old, new).Deleted` if and only if it
is a key of `old` and not a key of `new`, and then `Deleted` holds the value `old`
holds for it. -/
theorem getDifferences_Deleted_spec (oldCache newCache : GoMap Flag) (k : String) :
    (k ∈ (getDifferences oldCache newCache).Deleted.keys ↔
        k ∈ oldCache.keys ∧ k ∉ newCache.keys) ∧
    (k ∈ (getDifferences oldCache newCache).Deleted.keys →
        (getDifferences oldCache newCache).Deleted.get? k = oldCache.get? k) := by
  have key := mem_Deleted_keys_iff oldCache newCache k
  refine ⟨key, fun hk => ?_⟩
  obtain ⟨ho, hn⟩ := key.mp hk
  rw [GoMap.not_mem_keys_iff] at hn
  obtain ⟨v, hv⟩ := (GoMap.mem_keys_iff _ _).mp ho
  rw [getDifferences_Deleted_get?, if_pos ⟨ho, hn⟩, GoMap.index, hv]
  rfl

/-- C3: a flag name is a key of `getDifferences(old, new).Updated` if and only if it
is a key of both `old` and `new` and `old[k]` is structurally unequal to `new[k]`;
then the entry of `Updated` has the value of `old` as `Before` and the value of
`new` as `After`. -/
theorem getDifferences_Updated_spec (oldCache newCache : GoMap Flag) (k : String) :
    (k ∈ (getDifferences oldCache newCache).Updated.keys ↔
        k ∈ oldCache.keys ∧ k ∈ newCache.keys ∧ oldCache.index k ≠ newCache.index k) ∧
    (k ∈ (getDifferences oldCache newCache).Updated.keys →
        ∃ b a, oldCache.get? k = some b ∧ newCache.get? k = some a ∧
          (getDifferences oldCache newCache).Updated.get? k =
            some { Before := b, After := a }) := by
  have key := mem_Updated_keys_iff oldCache newCache k
  refine ⟨key, fun hk => ?_⟩
  obtain ⟨ho, hn, hne⟩ := key.mp hk
  obtain ⟨b, hb⟩ := (GoMap.mem_keys_iff _ _).mp ho
  obtain ⟨a, ha⟩ := (GoMap.mem_keys_iff _ _).mp hn
  refine ⟨b, a, hb, ha, ?_⟩
  rw [getDifferences_Updated_get?, ha]
  dsimp only
  rw [if_pos ⟨ho, hne⟩, GoMap.index, hb]
  rfl

/-- C4: `getDifferences` partitions the keys of the two mappings.  The key sets of
`Added`, `Deleted` and `Updated` are pairwise disjoint; a key of either mapping is
in one of the three or is unchanged (in both mappings, equal values); an unchanged
key has no entry in any of the three; and the three hold keys of the mappings
only. -/
theorem getDifferences_partition (oldCache newCache : GoMap Flag) (k : String) :
    ¬ (k ∈ (getDifferences oldCache newCache).Added.keys ∧
        k ∈ (getDifferences oldCache newCache).Deleted.keys) ∧
    ¬ (k ∈ (getDifferences oldCache newCache).Added.keys ∧
        k ∈ (getDifferences oldCache newCache).Updated.keys) ∧
    ¬ (k ∈ (getDifferences oldCache newCache).Deleted.keys ∧
        k ∈ (getDifferences oldCache newCache).Updated.keys) ∧
    (k ∈ oldCache.keys ∨ k ∈ newCache.keys →
        k ∈ (getDifferences oldCache newCache).Added.keys ∨
        k ∈ (getDifferences oldCache newCache).Deleted.keys ∨
        k ∈ (getDifferences oldCache newCache).Updated.keys ∨
        (k ∈ oldCache.keys ∧ k ∈ newCache.keys ∧ oldCache.index k = newCache.index k)) ∧
    (k ∈ oldCache.keys ∧ k ∈ newCache.keys ∧ oldCache.index k = newCache.index k →
        k ∉ (getDifferences oldCache newCache).Added.keys ∧
        k ∉ (getDifferences oldCache newCache).Deleted.keys ∧
        k ∉ (getDifferences oldCache newCache).Updated.keys) ∧
    (k ∈ (getDifferences oldCache newCache).Added.keys ∨
        k ∈ (getDifferences oldCache newCache).Deleted.keys ∨
        k ∈ (getDifferences oldCache newCache).Updated.keys →
        k ∈ oldCache.keys ∨ k ∈ newCache.keys) := by
  rw [mem_Added_keys_iff, mem_Deleted_keys_iff, mem_Updated_keys_iff]
  by_cases ho : k ∈ oldCache.keys <;> by_cases hn : k ∈ newCache.keys <;>
    by_cases he : oldCache.index k = newCache.index k <;> simp [ho, hn, he]

/-- C6: on the first load (the old mapping is empty or nil) of a non-empty mapping,
every key of the mapping is a key of `Added` with the value the mapping holds for
it, `Deleted` and `Updated` are empty, and the result has a diff. -/
theorem getDifferences_first_load (m : GoMap Flag) (h : m ≠ []) :
    (∀ k, k ∈ m.keys → k ∈ (getDifferences GoMap.empty m).Added.keys ∧
        (getDifferences GoMap.empty m).Added.get? k = m.get? k) ∧
    (getDifferences GoMap.empty m).Deleted = [] ∧
    (getDifferences GoMap.empty m).Updated = [] ∧
    (getDifferences GoMap.empty m).HasDiff = true := by
  have hA : ∀ k, k ∈ m.keys → k ∈ (getDifferences GoMap.empty m).Added.keys := by
    intro k hk
    rw [mem_Added_keys_iff]
    exact ⟨hk, by simp [GoMap.empty, GoMap.keys]⟩
  refine ⟨fun k hk => ⟨hA k hk, ?_⟩, ?_, ?_, ?_⟩
  · obtain ⟨v, hv⟩ := (GoMap.mem_keys_iff _ _).mp hk
    rw [getDifferences_Added_get?, if_pos ⟨hk, rfl⟩, GoMap.index, hv]
    rfl
  · rw [GoMap_eq_nil_iff_keys]
    intro k
    rw [mem_Deleted_keys_iff]
    simp [GoMap.empty, GoMap.keys]
  · rw [GoMap_eq_nil_iff_keys]
    intro k
    rw [mem_Updated_keys_iff]
    simp [GoMap.empty, GoMap.keys]
  · cases hb : (getDifferences GoMap.empty m).HasDiff with
    | true => rfl
    | false =>
      exfalso
      have hnil := ((HasDiff_eq_false_iff _).mp hb).1
      cases m with
      | nil => exact h rfl
      | cons e m =>
        have hmem := hA e.1 (by simp [GoMap.keys])
        rw [hnil] at hmem
        simp [GoMap.keys] at hmem

/-- C7: the diff is empty (all three maps empty, which is `HasDiff` being false) if
and only if `old` and `new` have the same keys and structurally equal values at every
key. -/
theorem getDifferences_empty_iff (oldCache newCache : GoMap Flag) :
    ((getDifferences oldCache newCache).HasDiff = false ↔
      (getDifferences oldCache newCache).Added = [] ∧
      (getDifferences oldCache newCache).Deleted = [] ∧
      (getDifferences oldCache newCache).Updated = []) ∧
    ((getDifferences oldCache newCache).Added = [] ∧
      (getDifferences oldCache newCache).Deleted = [] ∧
      (getDifferences oldCache newCache).Updated = [] ↔
      (∀ k, k ∈ oldCache.keys ↔ k ∈ newCache.keys) ∧
      (∀ k, k ∈ oldCache.keys → oldCache.index k = newCache.index k)) := by
  refine ⟨HasDiff_eq_false_iff _, ?_⟩
  simp only [GoMap_eq_nil_iff_keys, mem_Added_keys_iff, mem_Deleted_keys_iff,
    mem_Updated_keys_iff]
  constructor
  · rintro ⟨hA, hD, hU⟩
    refine ⟨fun k => ⟨fun ho => ?_, fun hn => ?_⟩, fun k ho => ?_⟩
    · by_contra hn
      exact hD k ⟨ho, hn⟩
    · by_contra ho
      exact hA k ⟨hn, ho⟩
    · by_contra he
      have hn : k ∈ newCache.keys := by
        by_contra hn
        exact hD k ⟨ho, hn⟩
      exact hU k ⟨ho, hn, he⟩
  · rintro ⟨hK, hE⟩
    refine ⟨fun k h => h.2 ((hK k).mpr h.1), fun k h => h.2 ((hK k).mp h.1),
      fun k h => h.2.2 (hE k h.1)⟩

end DiffEngine

/-! ## The notification dispatcher: `Notify` -/

section Dispatcher

variable {N Flag : Type} [DecidableEq Flag] [Inhabited Flag]

/-- C8: when the diff of `old` and `new` is empty, `Notify` starts no delivery task:
no notifier is called and the service, with its wait group, is left as it was. -/
theorem Notify_empty_diff (c : notificationService N) (oldCache newCache : GoMap Flag)
    (h : (getDifferences oldCache newCache).Added = [] ∧
      (getDifferences oldCache newCache).Deleted = [] ∧
      (getDifferences oldCache newCache).Updated = []) :
    Notify c oldCache newCache = (c, []) := by
  unfold Notify
  dsimp only
  rw [(HasDiff_eq_false_iff _).mpr h]
  rfl

/-- C9: when the diff of `old` and `new` has changes, `Notify` starts one delivery
task per registered notifier, in registration order, each called with
`getDifferences(old, new)`; the wait group counter grows by the number of notifiers
and the list of notifiers is unchanged. -/
theorem Notify_fan_out (c : notificationService N) (oldCache newCache : GoMap Flag)
    (h : ¬ ((getDifferences oldCache newCache).Added = [] ∧
      (getDifferences oldCache newCache).Deleted = [] ∧
      (getDifferences oldCache newCache).Updated = [])) :
    (Notify c oldCache newCache).2 =
      c.Notifiers.map
        (fun x => { notifier := x, diff := getDifferences oldCache newCache }) ∧
    (Notify c oldCache newCache).2.length = c.Notifiers.length ∧
    (Notify c oldCache newCache).1.waitGroup.counter =
      c.waitGroup.counter + c.Notifiers.length ∧
    (Notify c oldCache newCache).1.Notifiers = c.Notifiers := by
  have hd : (getDifferences oldCache newCache).HasDiff = true := by
    cases hb : (getDifferences oldCache newCache).HasDiff with
    | true => rfl
    | false => exact absurd ((HasDiff_eq_false_iff _).mp hb) h
  unfold Notify
  dsimp only
  rw [hd, if_pos rfl, notifyLoop]
  simp

end Dispatcher

end cache

/-! ## The configuration: `Config.GetRetriever` -/

namespace ffclient

/-- C10: `GetRetriever` returns an error if and only if the configuration has no
retriever; with a retriever it returns that retriever and no error; and it leaves
the configuration as it was. -/
theorem GetRetriever_spec {R L X E : Type} (c : Config R L X E) :
    (c.GetRetriever.1.2 ≠ none ↔ c.Retriever = none) ∧
    (∀ r, c.Retriever = some r → c.GetRetriever.1 = (some r, none)) ∧
    c.GetRetriever.2 = c := by
  unfold Config.GetRetriever
  cases c.Retriever with
  | none => simp
  | some r => simp

end ffclient

/-! ## The theorems at concrete inputs -/

namespace cache

open notifier

theorem getDifferences_Added_spec_witness :
    "d" ∈ (getDifferences ([("a", 1), ("b", 2), ("c", 3)] : GoMap Nat) ([("b", 2), ("c", 4), ("d", 5)] : GoMap Nat)).Added.keys ∧
    (getDifferences ([("a", 1), ("b", 2), ("c", 3)] : GoMap Nat) ([("b", 2), ("c", 4), ("d", 5)] : GoMap Nat)).Added.get? "d" = some 5 :=
  have h := getDifferences_Added_spec ([("a", 1), ("b", 2), ("c", 3)] : GoMap Nat) ([("b", 2), ("c", 4), ("d", 5)] : GoMap Nat) "d"
  have hk := h.1.mpr ⟨by decide, by decide⟩
  ⟨hk, (h.2 hk).trans (by decide)⟩

theorem getDifferences_Deleted_spec_witness :
    "a" ∈ (getDifferences ([("a", 1), ("b", 2), ("c", 3)] : GoMap Nat) ([("b", 2), ("c", 4), ("d", 5)] : GoMap Nat)).Deleted.keys ∧
    (getDifferences ([("a", 1), ("b", 2), ("c", 3)] : GoMap Nat) ([("b", 2), ("c", 4), ("d", 5)] : GoMap Nat)).Deleted.get? "a" = some 1 :=
  have h := getDifferences_Deleted_spec ([("a", 1), ("b", 2), ("c", 3)] : GoMap Nat) ([("b", 2), ("c", 4), ("d", 5)] : GoMap Nat) "a"
  have hk := h.1.mpr ⟨by decide, by decide⟩
  ⟨hk, (h.2 hk).trans (by decide)⟩

theorem getDifferences_Updated_spec_witness :
    "c" ∈ (getDifferences ([("a", 1), ("b", 2), ("c", 3)] : GoMap Nat) ([("b", 2), ("c", 4), ("d", 5)] : GoMap Nat)).Updated.keys ∧
    ∃ b a, GoMap.get? ([("a", 1), ("b", 2), ("c", 3)] : GoMap Nat) "c" = some b ∧ GoMap.get? ([("b", 2), ("c", 4), ("d", 5)] : GoMap Nat) "c" = some a ∧
      (getDifferences ([("a", 1), ("b", 2), ("c", 3)] : GoMap Nat) ([("b", 2), ("c", 4), ("d", 5)] : GoMap Nat)).Updated.get? "c" = some { Before := b, After := a } :=
  have h := getDifferences_Updated_spec ([("a", 1), ("b", 2), ("c", 3)] : GoMap Nat) ([("b", 2), ("c", 4), ("d", 5)] : GoMap Nat) "c"
  have hk := h.1.mpr ⟨by decide, by decide, by decide⟩
  ⟨hk, h.2 hk⟩

theorem getDifferences_partition_witness :
    (GoMap.index ([("a", 1), ("b", 2), ("c", 3)] : GoMap Nat) "b" = GoMap.index ([("b", 2), ("c", 4), ("d", 5)] : GoMap Nat) "b") ∧
    "b" ∉ (getDifferences ([("a", 1), ("b", 2), ("c", 3)] : GoMap Nat) ([("b", 2), ("c", 4), ("d", 5)] : GoMap Nat)).Added.keys ∧
    "b" ∉ (getDifferences ([("a", 1), ("b", 2), ("c", 3)] : GoMap Nat) ([("b", 2), ("c", 4), ("d", 5)] : GoMap Nat)).Deleted.keys ∧
    "b" ∉ (getDifferences ([("a", 1), ("b", 2), ("c", 3)] : GoMap Nat) ([("b", 2), ("c", 4), ("d", 5)] : GoMap Nat)).Updated.keys :=
  ⟨by decide,
    (getDifferences_partition ([("a", 1), ("b", 2), ("c", 3)] : GoMap Nat) ([("b", 2), ("c", 4), ("d", 5)] : GoMap Nat) "b").2.2.2.2.1 ⟨by decide, by decide, by decide⟩⟩

theorem getDifferences_first_load_witness :
    (∀ k, k ∈ GoMap.keys ([("b", 2), ("c", 4), ("d", 5)] : GoMap Nat) → k ∈ (getDifferences GoMap.empty ([("b", 2), ("c", 4), ("d", 5)] : GoMap Nat)).Added.keys ∧
        (getDifferences GoMap.empty ([("b", 2), ("c", 4), ("d", 5)] : GoMap Nat)).Added.get? k = GoMap.get? ([("b", 2), ("c", 4), ("d", 5)] : GoMap Nat) k) ∧
    (getDifferences GoMap.empty ([("b", 2), ("c", 4), ("d", 5)] : GoMap Nat)).Deleted = [] ∧
    (getDifferences GoMap.empty ([("b", 2), ("c", 4), ("d", 5)] : GoMap Nat)).Updated = [] ∧
    (getDifferences GoMap.empty ([("b", 2), ("c", 4), ("d", 5)] : GoMap Nat)).HasDiff = true :=
  getDifferences_first_load ([("b", 2), ("c", 4), ("d", 5)] : GoMap Nat) (by decide)

theorem Notify_empty_diff_witness :
    Notify ({ Notifiers := ["log", "webhook"], waitGroup := { counter := 3 } } :
        notificationService String) ([("a", 1), ("b", 2), ("c", 3)] : GoMap Nat) ([("a", 1), ("b", 2), ("c", 3)] : GoMap Nat) =
      ({ Notifiers := ["log", "webhook"], waitGroup := { counter := 3 } }, []) :=
  Notify_empty_diff _ ([("a", 1), ("b", 2), ("c", 3)] : GoMap Nat) ([("a", 1), ("b", 2), ("c", 3)] : GoMap Nat) (by decide)

theorem Notify_fan_out_witness :
    (Notify ({ Notifiers := ["log", "webhook"], waitGroup := { counter := 3 } } :
        notificationService String) ([("a", 1), ("b", 2), ("c", 3)] : GoMap Nat) ([("b", 2), ("c", 4), ("d", 5)] : GoMap Nat)).2 =
      [{ notifier := "log", diff := getDifferences ([("a", 1), ("b", 2), ("c", 3)] : GoMap Nat) ([("b", 2), ("c", 4), ("d", 5)] : GoMap Nat) },
        { notifier := "webhook", diff := getDifferences ([("a", 1), ("b", 2), ("c", 3)] : GoMap Nat) ([("b", 2), ("c", 4), ("d", 5)] : GoMap Nat) }] ∧
    (Notify ({ Notifiers := ["log", "webhook"], waitGroup := { counter := 3 } } :
        notificationService String) ([("a", 1), ("b", 2), ("c", 3)] : GoMap Nat) ([("b", 2), ("c", 4), ("d", 5)] : GoMap Nat)).1.waitGroup.counter = 5 :=
  have h := Notify_fan_out ({ Notifiers := ["log", "webhook"], waitGroup := { counter := 3 } } :
    notificationService String) ([("a", 1), ("b", 2), ("c", 3)] : GoMap Nat) ([("b", 2), ("c", 4), ("d", 5)] : GoMap Nat) (by decide)
  ⟨h.1, h.2.2.1⟩

end cache

namespace ffclient

theorem GetRetriever_spec_witness :
    (({ PollingInterval := 60000000000, Logger := none, Context := none, Environment := "",
        Retriever := some "file", Notifiers := [], FileFormat := "", DataExporter := (),
        StartWithRetrieverError := false, Offline := false } :
      Config String Unit Unit Unit).GetRetriever.1 = (some "file", none)) ∧
    (({ PollingInterval := 60000000000, Logger := none, Context := none, Environment := "",
        Retriever := none, Notifiers := [], FileFormat := "", DataExporter := (),
        StartWithRetrieverError := false, Offline := false } :
      Config String Unit Unit Unit).GetRetriever.1.2 ≠ none) :=
  ⟨(GetRetriever_spec _).2.1 "file" rfl, (GetRetriever_spec _).1.mpr rfl⟩

end ffclient

/-! ## Notifier configurations and construction -/

namespace ffclient

section Construction

variable {R L X E H W S : Type}

theorem getNotifiersLoop_ok (pk : Packages L H W S) (config : Config R L X E)
    (cs : List NotifierConfig) (acc : List (Notifier L W S))
    (h : ∀ c ∈ cs, (c.GetNotifier pk config).2 = none) :
    getNotifiersLoop pk config cs acc =
      (acc ++ cs.map (fun c => (c.GetNotifier pk config).1), none) := by
  induction cs generalizing acc with
  | nil => simp [getNotifiersLoop]
  | cons c cs ih =>
    have hc := h c (List.mem_cons_self c cs)
    have hcs : ∀ c' ∈ cs, (c'.GetNotifier pk config).2 = none :=
      fun c' hc' => h c' (List.mem_cons_of_mem c hc')
    unfold getNotifiersLoop
    cases hr : c.GetNotifier pk config with
    | mk n e =>
      rw [hr] at hc
      cases e with
      | some err => simp at hc
      | none =>
        dsimp only
        rw [ih _ hcs]
        simp [hr]

theorem getNotifiersLoop_error (pk : Packages L H W S) (config : Config R L X E)
    (cs : List NotifierConfig) (acc : List (Notifier L W S))
    (h : ∃ c ∈ cs, (c.GetNotifier pk config).2 ≠ none) :
    (getNotifiersLoop pk config cs acc).2 ≠ none := by
  induction cs generalizing acc with
  | nil => simp at h
  | cons c cs ih =>
    unfold getNotifiersLoop
    cases hr : c.GetNotifier pk config with
    | mk n e =>
      cases e with
      | some err => simp
      | none =>
        dsimp only
        apply ih
        obtain ⟨c', hc', he⟩ := h
        rcases List.mem_cons.mp hc' with rfl | hin
        · rw [hr] at he
          simp at he
        · exact ⟨c', hin, he⟩

/-- C11: the error returned by `WebhookConfig.GetNotifier` is the error returned by
the webhook constructor on the logger, the default HTTP client, `EndpointURL`,
`Secret` and `Meta`, unchanged: an error whenever the constructor fails, and no
error exactly when it succeeds. -/
theorem WebhookConfig_GetNotifier_error (pk : Packages L H W S) (w : WebhookConfig)
    (config : Config R L X E) :
    (w.GetNotifier pk config).2 =
      (pk.webhookNewNotifier config.Logger pk.DefaultHTTPClient w.EndpointURL w.Secret
        w.Meta).2 ∧
    ((w.GetNotifier pk config).2 = none ↔
      (pk.webhookNewNotifier config.Logger pk.DefaultHTTPClient w.EndpointURL w.Secret
        w.Meta).2 = none) :=
  ⟨rfl, Iff.rfl⟩

/-- C12, evaluated on the code: `SlackNotifier.GetNotifier` returns a nil error for
the address `" https://example.com/hook"`, whatever the slack constructor, the HTTP
client and the configuration are. -/
theorem SlackNotifier_GetNotifier_error_nil (pk : Packages L H W S)
    (config : Config R L X E) :
    (SlackNotifier.GetNotifier pk { SlackWebhookURL := " https://example.com/hook" }
      config).2 = none ∧
    (NotifierConfig.GetNotifier pk
      (NotifierConfig.slack { SlackWebhookURL := " https://example.com/hook" })
      config).2 = none :=
  ⟨rfl, rfl⟩

theorem New_TestStartWithMinInterval_iff (belowMinimum : Int → Option String) :
    TestStartWithMinInterval (New testPackages belowMinimum) ↔ belowMinimum 2 = none := by
  have h2 : checkPollingInterval belowMinimum 2 = belowMinimum 2 := by
    simp [checkPollingInterval, Second]
  unfold TestStartWithMinInterval New
  cases hb : belowMinimum 2 with
  | none =>
    simp [Config.GetRetriever, testMinIntervalConfig, h2, hb, getNotifiers, getNotifiersLoop]
  | some err =>
    simp [Config.GetRetriever, testMinIntervalConfig, h2, hb]

theorem New_TestStartWithNegativeInterval (belowMinimum : Int → Option String) :
    TestStartWithNegativeInterval (New testPackages belowMinimum) := by
  have h : checkPollingInterval belowMinimum (-(60 * Second)) =
      some "not a valid PollingInterval value" := by
    simp [checkPollingInterval, Second]
  unfold TestStartWithNegativeInterval New
  simp [Config.GetRetriever, testMinIntervalConfig, h]

/-- C15: with a logger and notifier configurations that are all constructible,
`getNotifiers` returns, without error, the log notifier followed by the notifier of
each configuration in configuration order, one more than there are configurations;
when the notifier of some configuration cannot be built, `getNotifiers` returns an
error. -/
theorem getNotifiers_ordered (pk : Packages L H W S) (config : Config R L X E) :
    (∀ logger, config.Logger = some logger →
      (∀ c ∈ config.Notifiers, (c.GetNotifier pk config).2 = none) →
      getNotifiers pk config =
        (Notifier.logs logger ::
          config.Notifiers.map (fun c => (c.GetNotifier pk config).1), none) ∧
      (getNotifiers pk config).1.length = config.Notifiers.length + 1) ∧
    ((∃ c ∈ config.Notifiers, (c.GetNotifier pk config).2 ≠ none) →
      (getNotifiers pk config).2 ≠ none) := by
  constructor
  · intro logger hl hc
    have h : getNotifiers pk config =
        (Notifier.logs logger ::
          config.Notifiers.map (fun c => (c.GetNotifier pk config).1), none) := by
      unfold getNotifiers
      rw [hl]
      dsimp only
      rw [getNotifiersLoop_ok pk config _ _ hc]
      rfl
    refine ⟨h, ?_⟩
    rw [h]
    simp
  · intro h
    unfold getNotifiers
    exact getNotifiersLoop_error pk config _ _ h

end Construction

end ffclient

/-! ## Construction at the configurations of the tests -/

namespace ffclient

/-- The webhook configuration of `TestWrongWebhookConfig` gets the error of the
constructor. -/
theorem WebhookConfig_GetNotifier_error_witness :
    (WebhookConfig.GetNotifier testPackages
      { EndpointURL := " https://example.com/hook", Secret := "Secret",
        Meta := [("my-app", "go-ff-test")] }
      testMinIntervalConfig).2 = some "parse error" :=
  (WebhookConfig_GetNotifier_error testPackages _ testMinIntervalConfig).1.trans rfl

theorem getNotifiers_ordered_witness :
    getNotifiers testPackages
      { testMinIntervalConfig with
        Notifiers :=
          [NotifierConfig.webhook
            { EndpointURL := "http://webhook.com/hook", Secret := "Secret", Meta := [] },
            NotifierConfig.slack { SlackWebhookURL := "http://webhook.com/hook" }] } =
      ([Notifier.logs (), Notifier.webhook "http://webhook.com/hook",
        Notifier.slack "http://webhook.com/hook"], none) ∧
    (getNotifiers testPackages
      { testMinIntervalConfig with
        Notifiers :=
          [NotifierConfig.webhook
            { EndpointURL := " https://example.com/hook", Secret := "Secret",
              Meta := [] }] }).2 ≠ none :=
  ⟨((getNotifiers_ordered testPackages _).1 () rfl (by decide)).1,
    (getNotifiers_ordered testPackages _).2 ⟨_, List.mem_cons_self _ _, by decide⟩⟩

end ffclient

/-! ## Executions of the notification service -/

namespace cache

open notifier

section Drain

variable {N Flag : Type} [DecidableEq Flag] [Inhabited Flag]

theorem Notify_counter (c : notificationService N) (o n : GoMap Flag) :
    (Notify c o n).1.waitGroup.counter = c.waitGroup.counter + (Notify c o n).2.length := by
  unfold Notify
  dsimp only
  split
  · rw [notifyLoop]
    simp
  · simp

theorem Run.step_invariant (s s' : Run N Flag) (e : Event Flag) (h : s.step e = some s')
    (hc : s.service.waitGroup.counter = s.running.length)
    (hn : (s.started : Int) - s.completed = s.running.length) :
    s'.service.waitGroup.counter = s'.running.length ∧
      (s'.started : Int) - s'.completed = s'.running.length := by
  cases e with
  | notify o n =>
    simp only [Run.step, Option.some.injEq] at h
    subst h
    simp only [List.length_append, Nat.cast_add]
    rw [Notify_counter]
    omega
  | done i =>
    simp only [Run.step] at h
    split at h
    · rename_i hi
      simp only [Option.some.injEq] at h
      subst h
      simp only [WaitGroup.Add, List.length_eraseIdx, hi, if_true, Nat.cast_add, Nat.cast_one]
      omega
    · simp at h
  | close =>
    simp only [Run.step] at h
    split at h
    · simp only [Option.some.injEq] at h
      subst h
      exact ⟨hc, hn⟩
    · simp at h

theorem Run.exec_invariant (es : List (Event Flag)) (s s' : Run N Flag)
    (h : s.exec es = some s')
    (hc : s.service.waitGroup.counter = s.running.length)
    (hn : (s.started : Int) - s.completed = s.running.length) :
    s'.service.waitGroup.counter = s'.running.length ∧
      (s'.started : Int) - s'.completed = s'.running.length := by
  induction es generalizing s with
  | nil =>
    simp only [Run.exec, Option.some.injEq] at h
    subst h
    exact ⟨hc, hn⟩
  | cons e es ih =>
    simp only [Run.exec] at h
    cases hs : s.step e with
    | none => simp [hs] at h
    | some t =>
      rw [hs] at h
      obtain ⟨hc', hn'⟩ := Run.step_invariant s t e hs hc hn
      exact ih t h hc' hn'

/-- C14: in every execution of a service in which each started delivery completes at
most once, the counter of the wait group is the number of deliveries started minus
the number completed, which is the number of deliveries still running, so it is
never negative; and `Close` returns only when the counter is zero, when no delivery
started before is still running. -/
theorem drain_completeness (notifiers : List N) (es : List (Event Flag)) (s : Run N Flag)
    (h : (Run.initial notifiers).exec es = some s) :
    s.service.waitGroup.counter = (s.started : Int) - s.completed ∧
    s.service.waitGroup.counter = s.running.length ∧
    0 ≤ s.service.waitGroup.counter ∧
    (∀ s', s.step Event.close = some s' →
      s' = s ∧ s.service.waitGroup.counter = 0 ∧ s'.running = []) := by
  obtain ⟨hc, hn⟩ := Run.exec_invariant es (Run.initial notifiers) s h rfl rfl
  refine ⟨by omega, hc, by omega, ?_⟩
  intro s' hs'
  simp only [Run.step] at hs'
  split at hs'
  · rename_i h0
    simp only [Option.some.injEq] at hs'
    subst hs'
    refine ⟨rfl, h0, ?_⟩
    rw [h0] at hc
    exact List.length_eq_zero.mp (by exact_mod_cast hc.symm)
  · simp at hs'

end Drain

end cache

/-! ## More lemmas on Go maps: deletion, loops of assignments, iteration order -/

namespace GoMap

variable {V : Type}

theorem get?_delete (m : GoMap V) (k k' : String) :
    (m.delete k).get? k' = if k = k' then none else m.get? k' := by
  induction m with
  | nil => simp [delete, get?]
  | cons e m ih =>
    obtain ⟨a, b⟩ := e
    unfold delete at ih ⊢
    rw [List.filter_cons]
    by_cases hak : a = k
    · subst hak
      have hd : decide ((a, b).1 ≠ a) = false := by simp
      rw [hd, if_neg (by simp), ih]
      by_cases hk : a = k' <;> simp [get?, hk]
    · have hd : decide ((a, b).1 ≠ k) = true := by simp [hak]
      rw [hd, if_pos rfl]
      simp only [get?]
      rw [ih]
      by_cases hk : k = k'
      · subst hk
        simp [hak]
      · simp [hk]

theorem get?_deleteAll (m : GoMap V) (ks : List String) (k : String) :
    (m.deleteAll ks).get? k = if k ∈ ks then none else m.get? k := by
  induction ks generalizing m with
  | nil => simp [deleteAll]
  | cons a ks ih =>
    have ih' := ih (m.delete a)
    simp only [deleteAll, List.foldl_cons] at ih' ⊢
    rw [ih', get?_delete]
    by_cases hak : a = k
    · simp [hak]
    · have hka : ¬ k = a := fun h => hak h.symm
      simp [hak, hka]

theorem get?_setAll (m : GoMap V) (ks : List String) (f : String → Option V) (k : String) :
    (m.setAll ks f).get? k =
      if k ∈ ks then
        match f k with
        | some v => some v
        | none => m.get? k
      else m.get? k := by
  induction ks generalizing m with
  | nil => simp [setAll]
  | cons a ks ih =>
    simp only [setAll, List.foldl_cons]
    have ih' := fun m' => ih m'
    simp only [setAll] at ih'
    rw [ih']
    by_cases hak : a = k
    · subst hak
      cases hf : f a with
      | none => simp
      | some v => simp [get?_set]
    · have hka : ¬ k = a := fun h => hak h.symm
      cases hf : f a with
      | none => simp [hka]
      | some v => simp [hka, hak, get?_set]

theorem mem_iff_get?_of_nodup (m : GoMap V) (h : m.keys.Nodup) (k : String) (v : V) :
    (k, v) ∈ m ↔ m.get? k = some v := by
  induction m with
  | nil => simp [get?]
  | cons e m ih =>
    obtain ⟨a, b⟩ := e
    have hnd : (a ∉ keys m) ∧ (keys m).Nodup := by
      simpa [keys] using h
    have ih' := ih hnd.2
    by_cases hak : a = k
    · subst hak
      have hnot : (a, v) ∉ m := fun hm => hnd.1 (List.mem_map.mpr ⟨(a, v), hm, rfl⟩)
      simp only [List.mem_cons, Prod.mk.injEq, true_and, get?, if_true, Option.some.injEq, hnot,
        or_false]
      exact eq_comm
    · have hka : ¬ k = a := fun h => hak h.symm
      simp [get?, hak, hka, ih']

theorem get?_eq_of_perm (m m' : GoMap V) (h : m.keys.Nodup) (hp : List.Perm m m')
    (k : String) : m.get? k = m'.get? k := by
  have h' : m'.keys.Nodup := (List.Perm.nodup_iff (hp.map Prod.fst)).mp h
  apply Option.ext
  intro v
  rw [Option.mem_def, Option.mem_def, ← mem_iff_get?_of_nodup m h, ← mem_iff_get?_of_nodup m' h']
  exact hp.mem_iff

theorem mem_keys_of_perm (m m' : GoMap V) (hp : List.Perm m m') (k : String) :
    k ∈ m.keys ↔ k ∈ m'.keys :=
  (hp.map Prod.fst).mem_iff

theorem keys_set_nodup (m : GoMap V) (k : String) (v : V) (h : m.keys.Nodup) :
    (m.set k v).keys.Nodup := by
  induction m with
  | nil => simp [set, keys]
  | cons e m ih =>
    obtain ⟨a, b⟩ := e
    have hnd : (a ∉ keys m) ∧ (keys m).Nodup := by
      simpa [keys] using h
    by_cases hak : a = k
    · simpa [set, hak, keys] using h
    · have hmem : a ∉ keys (set m k v) := by
        rw [not_mem_keys_iff, get?_set]
        have hka : ¬ k = a := fun h => hak h.symm
        simpa [hka] using (not_mem_keys_iff m a).mp hnd.1
      have ih' := ih hnd.2
      simp only [set, hak, if_false, keys, List.map_cons, List.nodup_cons]
      exact ⟨hmem, ih'⟩

theorem perm_of_get?_eq (m m' : GoMap V) (h : m.keys.Nodup) (h' : m'.keys.Nodup)
    (he : ∀ k, m.get? k = m'.get? k) : List.Perm m m' := by
  rw [List.perm_ext_iff_of_nodup (List.Nodup.of_map _ h) (List.Nodup.of_map _ h')]
  rintro ⟨k, v⟩
  rw [mem_iff_get?_of_nodup m h, mem_iff_get?_of_nodup m' h', he]

end GoMap

/-! ## Algebra of the diff: rebuilding, swapping, iteration order -/

namespace cache

open notifier

section DiffAlgebra

variable {Flag : Type} [DecidableEq Flag] [Inhabited Flag]

theorem oldLoop_Deleted_eq (o n : GoMap Flag) (ks : List String) (d : DiffCache Flag) :
    (ks.foldl (oldCacheStep o n) d).Deleted =
      ks.foldl (fun m key => match n.get? key with
        | none => GoMap.set m key (o.index key)
        | some _ => m) d.Deleted := by
  induction ks generalizing d with
  | nil => rfl
  | cons a ks ih =>
    rw [List.foldl_cons, List.foldl_cons, ih]
    congr 1
    unfold oldCacheStep
    cases n.get? a with
    | none => rfl
    | some w => dsimp only; split <;> rfl

omit [DecidableEq Flag] in
theorem newLoop_Added_eq (o n : GoMap Flag) (ks : List String) (d : DiffCache Flag) :
    (ks.foldl (newCacheStep o n) d).Added =
      ks.foldl (fun m key => match o.get? key with
        | none => GoMap.set m key (n.index key)
        | some _ => m) d.Added := by
  induction ks generalizing d with
  | nil => rfl
  | cons a ks ih =>
    rw [List.foldl_cons, List.foldl_cons, ih]
    congr 1
    unfold newCacheStep
    cases o.get? a <;> rfl

theorem getDifferences_Deleted_eq (o n : GoMap Flag) :
    (getDifferences o n).Deleted =
      o.keys.foldl (fun m key => match n.get? key with
        | none => GoMap.set m key (o.index key)
        | some _ => m) [] := by
  unfold getDifferences
  dsimp only
  rw [newLoop_Deleted, oldLoop_Deleted_eq]
  rfl

theorem getDifferences_Added_eq (o n : GoMap Flag) :
    (getDifferences o n).Added =
      n.keys.foldl (fun m key => match o.get? key with
        | none => GoMap.set m key (n.index key)
        | some _ => m) [] := by
  unfold getDifferences
  dsimp only
  rw [newLoop_Added_eq, oldLoop_Added]
  rfl

theorem oldCacheStep_nodup (o n : GoMap Flag) (d : DiffCache Flag) (a : String)
    (h : d.Deleted.keys.Nodup ∧ d.Updated.keys.Nodup ∧ d.Added.keys.Nodup) :
    (oldCacheStep o n d a).Deleted.keys.Nodup ∧ (oldCacheStep o n d a).Updated.keys.Nodup ∧
      (oldCacheStep o n d a).Added.keys.Nodup := by
  unfold oldCacheStep
  cases n.get? a with
  | none => exact ⟨GoMap.keys_set_nodup _ _ _ h.1, h.2.1, h.2.2⟩
  | some w =>
    dsimp only
    split
    · exact ⟨h.1, GoMap.keys_set_nodup _ _ _ h.2.1, h.2.2⟩
    · exact h

omit [DecidableEq Flag] in
theorem newCacheStep_nodup (o n : GoMap Flag) (d : DiffCache Flag) (a : String)
    (h : d.Deleted.keys.Nodup ∧ d.Updated.keys.Nodup ∧ d.Added.keys.Nodup) :
    (newCacheStep o n d a).Deleted.keys.Nodup ∧ (newCacheStep o n d a).Updated.keys.Nodup ∧
      (newCacheStep o n d a).Added.keys.Nodup := by
  unfold newCacheStep
  cases o.get? a with
  | none => exact ⟨h.1, h.2.1, GoMap.keys_set_nodup _ _ _ h.2.2⟩
  | some w => exact h

theorem oldLoop_nodup (o n : GoMap Flag) (ks : List String) (d : DiffCache Flag)
    (h : d.Deleted.keys.Nodup ∧ d.Updated.keys.Nodup ∧ d.Added.keys.Nodup) :
    (ks.foldl (oldCacheStep o n) d).Deleted.keys.Nodup ∧
      (ks.foldl (oldCacheStep o n) d).Updated.keys.Nodup ∧
      (ks.foldl (oldCacheStep o n) d).Added.keys.Nodup := by
  induction ks generalizing d with
  | nil => exact h
  | cons a ks ih =>
    rw [List.foldl_cons]
    exact ih _ (oldCacheStep_nodup o n d a h)

omit [DecidableEq Flag] in
theorem newLoop_nodup (o n : GoMap Flag) (ks : List String) (d : DiffCache Flag)
    (h : d.Deleted.keys.Nodup ∧ d.Updated.keys.Nodup ∧ d.Added.keys.Nodup) :
    (ks.foldl (newCacheStep o n) d).Deleted.keys.Nodup ∧
      (ks.foldl (newCacheStep o n) d).Updated.keys.Nodup ∧
      (ks.foldl (newCacheStep o n) d).Added.keys.Nodup := by
  induction ks generalizing d with
  | nil => exact h
  | cons a ks ih =>
    rw [List.foldl_cons]
    exact ih _ (newCacheStep_nodup o n d a h)

/-- No key occurs twice in a map built by `getDifferences`. -/
theorem getDifferences_nodup (o n : GoMap Flag) :
    (getDifferences o n).Deleted.keys.Nodup ∧ (getDifferences o n).Updated.keys.Nodup ∧
      (getDifferences o n).Added.keys.Nodup := by
  unfold getDifferences
  dsimp only
  apply newLoop_nodup
  apply oldLoop_nodup
  simp [GoMap.empty, GoMap.keys]

theorem index_eq_of_get? {V : Type} [Inhabited V] (m m' : GoMap V) (k : String)
    (h : m.get? k = m'.get? k) : m.index k = m'.index k := by
  unfold GoMap.index
  rw [h]

/-- C16: the diff rebuilds the new cache.  Deleting from `old` every key of
`Deleted`, setting every key of `Updated` to its `After` and inserting every entry
of `Added` gives a mapping with the keys of `new` and the value of `new` at each. -/
theorem applyDiff_getDifferences (oldCache newCache : GoMap Flag) (k : String) :
    (k ∈ (applyDiff oldCache (getDifferences oldCache newCache)).keys ↔ k ∈ newCache.keys) ∧
    (applyDiff oldCache (getDifferences oldCache newCache)).get? k = newCache.get? k := by
  have key : (applyDiff oldCache (getDifferences oldCache newCache)).get? k =
      newCache.get? k := by
    unfold applyDiff
    dsimp only
    rw [GoMap.get?_setAll, GoMap.get?_setAll, GoMap.get?_deleteAll,
      getDifferences_Added_get?, getDifferences_Updated_get?]
    have hA := mem_Added_keys_iff oldCache newCache k
    have hD := mem_Deleted_keys_iff oldCache newCache k
    have hU := mem_Updated_keys_iff oldCache newCache k
    cases ho : oldCache.get? k with
    | none =>
      have hko : k ∉ oldCache.keys := (GoMap.not_mem_keys_iff _ _).mpr ho
      cases hn : newCache.get? k with
      | none =>
        have hkn : k ∉ newCache.keys := (GoMap.not_mem_keys_iff _ _).mpr hn
        simp [hA, hD, hU, hko, hkn]
      | some w =>
        have hkn : k ∈ newCache.keys := (GoMap.mem_keys_iff _ _).mpr ⟨w, hn⟩
        simp [hA, hko, hkn, GoMap.index, hn]
    | some v =>
      have hko : k ∈ oldCache.keys := (GoMap.mem_keys_iff _ _).mpr ⟨v, ho⟩
      cases hn : newCache.get? k with
      | none =>
        have hkn : k ∉ newCache.keys := (GoMap.not_mem_keys_iff _ _).mpr hn
        simp [hA, hD, hU, hko, hkn]
      | some w =>
        have hkn : k ∈ newCache.keys := (GoMap.mem_keys_iff _ _).mpr ⟨w, hn⟩
        by_cases hvw : v = w
        · simp [hA, hD, hU, hko, hkn, GoMap.index, ho, hn, hvw]
        · simp [hA, hD, hU, hko, hkn, GoMap.index, ho, hn, hvw]
  refine ⟨?_, key⟩
  rw [GoMap.mem_keys_iff, GoMap.mem_keys_iff, key]

/-- C17: swapping the arguments mirrors the diff.  `Added` of the swapped call is
`Deleted` of the original call and the other way round, and `Updated` of the swapped
call has the keys of `Updated` of the original call, with `Before` and `After`
exchanged at every key. -/
theorem getDifferences_swap (a b : GoMap Flag) (k : String) :
    (getDifferences b a).Added = (getDifferences a b).Deleted ∧
    (getDifferences b a).Deleted = (getDifferences a b).Added ∧
    (k ∈ (getDifferences b a).Updated.keys ↔ k ∈ (getDifferences a b).Updated.keys) ∧
    (getDifferences b a).Updated.get? k =
      ((getDifferences a b).Updated.get? k).map
        (fun u => { Before := u.After, After := u.Before }) := by
  refine ⟨?_, ?_, ?_, ?_⟩
  · rw [getDifferences_Added_eq, getDifferences_Deleted_eq]
  · rw [getDifferences_Added_eq, getDifferences_Deleted_eq]
  · rw [mem_Updated_keys_iff, mem_Updated_keys_iff]
    constructor
    · rintro ⟨h1, h2, h3⟩
      exact ⟨h2, h1, fun h => h3 h.symm⟩
    · rintro ⟨h1, h2, h3⟩
      exact ⟨h2, h1, fun h => h3 h.symm⟩
  · rw [getDifferences_Updated_get?, getDifferences_Updated_get?]
    cases ha : a.get? k with
    | none => cases hb : b.get? k <;> simp [(GoMap.not_mem_keys_iff a k).mpr ha]
    | some v =>
      have hka : k ∈ a.keys := (GoMap.mem_keys_iff _ _).mpr ⟨v, ha⟩
      cases hb : b.get? k with
      | none => simp [(GoMap.not_mem_keys_iff b k).mpr hb]
      | some w =>
        have hkb : k ∈ b.keys := (GoMap.mem_keys_iff _ _).mpr ⟨w, hb⟩
        by_cases hvw : v = w
        · simp [hka, hkb, GoMap.index, ha, hb, hvw]
        · have hwv : ¬ w = v := fun h => hvw h.symm
          simp [hka, hkb, GoMap.index, ha, hb, hvw, hwv]

/-- C18: the diff does not depend on the iteration order.  When the entries of `old`
and of `new` are visited in another order, `Added`, `Deleted` and `Updated` hold the
same value at every key and the same entries. -/
theorem getDifferences_order_independent (oldCache oldCache' newCache newCache' : GoMap Flag)
    (hOld : oldCache.keys.Nodup) (hNew : newCache.keys.Nodup)
    (hOldPerm : List.Perm oldCache oldCache') (hNewPerm : List.Perm newCache newCache') :
    (∀ k, (getDifferences oldCache' newCache').Added.get? k =
        (getDifferences oldCache newCache).Added.get? k) ∧
    (∀ k, (getDifferences oldCache' newCache').Deleted.get? k =
        (getDifferences oldCache newCache).Deleted.get? k) ∧
    (∀ k, (getDifferences oldCache' newCache').Updated.get? k =
        (getDifferences oldCache newCache).Updated.get? k) ∧
    List.Perm (getDifferences oldCache' newCache').Added
      (getDifferences oldCache newCache).Added ∧
    List.Perm (getDifferences oldCache' newCache').Deleted
      (getDifferences oldCache newCache).Deleted ∧
    List.Perm (getDifferences oldCache' newCache').Updated
      (getDifferences oldCache newCache).Updated := by
  have go : ∀ k, oldCache.get? k = oldCache'.get? k :=
    GoMap.get?_eq_of_perm oldCache oldCache' hOld hOldPerm
  have gn : ∀ k, newCache.get? k = newCache'.get? k :=
    GoMap.get?_eq_of_perm newCache newCache' hNew hNewPerm
  have ko : ∀ k, k ∈ oldCache.keys ↔ k ∈ oldCache'.keys :=
    GoMap.mem_keys_of_perm oldCache oldCache' hOldPerm
  have kn : ∀ k, k ∈ newCache.keys ↔ k ∈ newCache'.keys :=
    GoMap.mem_keys_of_perm newCache newCache' hNewPerm
  have io : ∀ k, oldCache.index k = oldCache'.index k :=
    fun k => index_eq_of_get? _ _ k (go k)
  have iN : ∀ k, newCache.index k = newCache'.index k :=
    fun k => index_eq_of_get? _ _ k (gn k)
  have hA : ∀ k, (getDifferences oldCache' newCache').Added.get? k =
      (getDifferences oldCache newCache).Added.get? k := by
    intro k
    rw [getDifferences_Added_get?, getDifferences_Added_get?]
    simp only [← go, ← kn, ← iN]
  have hD : ∀ k, (getDifferences oldCache' newCache').Deleted.get? k =
      (getDifferences oldCache newCache).Deleted.get? k := by
    intro k
    rw [getDifferences_Deleted_get?, getDifferences_Deleted_get?]
    simp only [← gn, ← ko, ← io]
  have hU : ∀ k, (getDifferences oldCache' newCache').Updated.get? k =
      (getDifferences oldCache newCache).Updated.get? k := by
    intro k
    rw [getDifferences_Updated_get?, getDifferences_Updated_get?]
    simp only [← gn, ← ko, ← io, ← iN]
  have nd := getDifferences_nodup oldCache newCache
  have nd' := getDifferences_nodup oldCache' newCache'
  exact ⟨hA, hD, hU, GoMap.perm_of_get?_eq _ _ nd'.2.2 nd.2.2 hA,
    GoMap.perm_of_get?_eq _ _ nd'.1 nd.1 hD, GoMap.perm_of_get?_eq _ _ nd'.2.1 nd.2.1 hU⟩

end DiffAlgebra

end cache

/-! ## Executions and iteration orders at concrete inputs -/

namespace cache

open notifier

theorem drain_completeness_witness :
    (Run.initial ["log", "webhook"]).exec
        [Event.notify ([("a", 1), ("b", 2), ("c", 3)] : GoMap Nat) ([("b", 2), ("c", 4), ("d", 5)] : GoMap Nat), Event.done 1] =
      some { service := { Notifiers := ["log", "webhook"], waitGroup := { counter := 1 } },
             running := [{ notifier := "log", diff := getDifferences ([("a", 1), ("b", 2), ("c", 3)] : GoMap Nat) ([("b", 2), ("c", 4), ("d", 5)] : GoMap Nat) }],
             started := 2, completed := 1 } ∧
    (Run.step ({ service := { Notifiers := ["log", "webhook"], waitGroup := { counter := 1 } },
                 running := [{ notifier := "log", diff := getDifferences ([("a", 1), ("b", 2), ("c", 3)] : GoMap Nat) ([("b", 2), ("c", 4), ("d", 5)] : GoMap Nat) }],
                 started := 2, completed := 1 } : Run String Nat) Event.close = none) ∧
    ((1 : Int) = ((2 : Nat) : Int) - ((1 : Nat) : Int)) :=
  ⟨rfl, rfl,
    (drain_completeness ["log", "webhook"]
      [Event.notify ([("a", 1), ("b", 2), ("c", 3)] : GoMap Nat) ([("b", 2), ("c", 4), ("d", 5)] : GoMap Nat), Event.done 1]
      { service := { Notifiers := ["log", "webhook"], waitGroup := { counter := 1 } },
        running := [{ notifier := "log", diff := getDifferences ([("a", 1), ("b", 2), ("c", 3)] : GoMap Nat) ([("b", 2), ("c", 4), ("d", 5)] : GoMap Nat) }],
        started := 2, completed := 1 } (by rfl)).1⟩

theorem getDifferences_order_independent_witness :
    (getDifferences ([("c", 3), ("a", 1), ("b", 2)] : GoMap Nat) ([("d", 5), ("c", 4), ("b", 2)] : GoMap Nat)).Updated.get? "c" = (getDifferences ([("a", 1), ("b", 2), ("c", 3)] : GoMap Nat) ([("b", 2), ("c", 4), ("d", 5)] : GoMap Nat)).Updated.get? "c" ∧
    List.Perm (getDifferences ([("c", 3), ("a", 1), ("b", 2)] : GoMap Nat) ([("d", 5), ("c", 4), ("b", 2)] : GoMap Nat)).Added (getDifferences ([("a", 1), ("b", 2), ("c", 3)] : GoMap Nat) ([("b", 2), ("c", 4), ("d", 5)] : GoMap Nat)).Added :=
  have h := getDifferences_order_independent ([("a", 1), ("b", 2), ("c", 3)] : GoMap Nat) ([("c", 3), ("a", 1), ("b", 2)] : GoMap Nat) ([("b", 2), ("c", 4), ("d", 5)] : GoMap Nat) ([("d", 5), ("c", 4), ("b", 2)] : GoMap Nat)
    (by decide) (by decide) (by decide) (by decide)
  ⟨h.2.2.1 "c", h.2.2.2.1⟩

end cache

/-! ## The diff of a mapping with itself, for any comparison -/

namespace cache

open notifier

section SelfDiff

variable {Flag : Type} [Inhabited Flag]

theorem getDifferences_eq_getDifferencesWith [DecidableEq Flag] (o n : GoMap Flag) :
    getDifferences o n = getDifferencesWith cmpEqual o n :=
  rfl

end SelfDiff

end cache
